import Mathlib

/-!
Shallow embedding of the object-store program in src/pit.py and verification of the
frozen claims about it.  Python byte strings are modeled as List Nat (one Nat per
byte), Python str as Lean String, raised exceptions as Option/Except results, and
the filesystem and syscall outcomes as explicit parameters.  hashlib.sha1(...)
.hexdigest() and zlib.compress are external library calls and are abstracted as
function parameters.
-/

/-- UTF-8 encoding of one Unicode code point, as used by Python str.encode(). -/
def utf8Char (c : Nat) : List Nat :=
  if c < 128 then [c]
  else if c < 2048 then [192 + c / 64, 128 + c % 64]
  else if c < 65536 then [224 + c / 4096, 128 + c / 64 % 64, 128 + c % 64]
  else [240 + c / 262144, 128 + c / 4096 % 64, 128 + c / 64 % 64, 128 + c % 64]

/-- Python str.encode(): the UTF-8 bytes of a string. -/
def strBytes (s : String) : List Nat :=
  (s.data.map (fun c => utf8Char c.toNat)).flatten

/-- The code-point sequence of a Python str; Python compares strings
lexicographically on code points. -/
def strKey (s : String) : List Nat :=
  s.data.map Char.toNat

/-- Python string less-than: lexicographic comparison of code-point sequences. -/
def pyStrLt : List Nat → List Nat → Bool
  | [], [] => false
  | [], _ :: _ => true
  | _ :: _, [] => false
  | a :: s, b :: t => if a < b then true else if b < a then false else pyStrLt s t

/-- Stable insertion of an element into a list: the element is placed before the
first element that is not strictly below it, hence after every element equal to it.
This is the placement a stable sort gives. -/
def insertByLt (lt : α → α → Bool) (a : α) : List α → List α
  | [] => [a]
  | b :: t => if lt b a then b :: insertByLt lt a t else a :: b :: t

/-- Python sorted(xs, key=...): a stable sort of the list by the key's strict
order.  Python's sort is stable, and a stable sort of a list by a total preorder
is unique, so stable insertion sort is an exact model of its result. -/
def pySorted (lt : α → α → Bool) : List α → List α
  | [] => []
  | a :: t => insertByLt lt a (pySorted lt t)

/-- pit.py Entry: a (name, id) pair built from a file name and a stored blob id. -/
structure Entry where
  name : String
  id : String
deriving DecidableEq

/-- The comparison used by sorted(self.entries, key=lambda x: x.name) in
Tree.serialize: entries compare by Python string comparison of their names. -/
def entryLt (a b : Entry) : Bool :=
  pyStrLt (strKey a.name) (strKey b.name)

/-- Value of one hex digit, as accepted by Python bytearray.fromhex
(0-9, a-f, A-F). -/
def hexVal (c : Char) : Option Nat :=
  if 48 ≤ c.toNat ∧ c.toNat ≤ 57 then some (c.toNat - 48)
  else if 97 ≤ c.toNat ∧ c.toNat ≤ 102 then some (c.toNat - 87)
  else if 65 ≤ c.toNat ∧ c.toNat ≤ 70 then some (c.toNat - 55)
  else none

/-- Python bytearray.fromhex: skips spaces between byte pairs and reads two hex
digits per output byte; any other character, or a trailing lone digit, raises
ValueError (modeled as none).  The length of the input is not otherwise
constrained: any even number of hex digits is accepted. -/
def bytesFromhex : List Char → Option (List Nat)
  | [] => some []
  | c :: cs =>
    if c = ' ' then bytesFromhex cs
    else
      match cs with
      | [] => none
      | c2 :: rest =>
        match hexVal c, hexVal c2 with
        | some d1, some d2 => (bytesFromhex rest).map (fun bs => (16 * d1 + d2) :: bs)
        | _, _ => none

/-- Tree.MODE = b'100644'. -/
def treeMODE : List Nat := strBytes "100644"

/-- The bytes Tree.serialize emits for one entry:
MODE + b' ' + entry.name.encode() + b'\x00' + bytearray.fromhex(entry.id);
none models the ValueError raised by fromhex on a malformed id. -/
def entryRow (e : Entry) : Option (List Nat) :=
  (bytesFromhex e.id.data).map
    (fun digest => treeMODE ++ [32] ++ strBytes e.name ++ [0] ++ digest)

/-- The loop body of Tree.serialize: build the per-entry byte strings in order,
stopping with the ValueError of the first malformed id (none if any row fails). -/
def collectRows : List Entry → Option (List (List Nat))
  | [] => some []
  | e :: rest =>
    match entryRow e, collectRows rest with
    | some r, some rs => some (r :: rs)
    | _, _ => none

/-- pit.py Tree.serialize: sort the entries by name with Python's stable sorted(),
emit each row, and b''.join the rows. -/
def treeSerialize (entries : List Entry) : Option (List Nat) :=
  (collectRows (pySorted entryLt entries)).map List.flatten

/-- Model of a Python datetime value: seconds since the Unix epoch, plus the UTC
offset in minutes when the value is timezone-aware.  datetime.now() with no
argument - the only constructor used by pit.py - yields a naive value, modeled
as utcOffsetMinutes = none. -/
structure PyDateTime where
  epoch : Int
  utcOffsetMinutes : Option Int
deriving DecidableEq

/-- Two-digit zero-padded decimal, used by strftime for the HH and MM of %z. -/
def pad2 (n : Nat) : String :=
  if n < 10 then "0" ++ toString n else toString n

/-- strftime %z: the empty string for a naive datetime, otherwise a sign followed
by four digits HHMM of the UTC offset. -/
def formatPercentZ : Option Int → String
  | none => ""
  | some m =>
    (if m < 0 then "-" else "+") ++ pad2 (m.natAbs / 60) ++ pad2 (m.natAbs % 60)

/-- datetime.strftime(time, "%s %z") as called by Author.serialize: glibc %s is
the decimal seconds since the epoch, then one space, then %z. -/
def strftimeSZ (t : PyDateTime) : String :=
  toString t.epoch ++ " " ++ formatPercentZ t.utcOffsetMinutes

/-- pit.py Author: name, email and a datetime. -/
structure Author where
  name : String
  email : String
  time : PyDateTime
deriving DecidableEq

/-- pit.py Author.serialize: f-string of name, email and strftime(time, "%s %z"),
separated by single spaces. -/
def Author.serialize (a : Author) : String :=
  a.name ++ " " ++ a.email ++ " " ++ strftimeSZ a.time

/-- Python "\n".join(lines). -/
def joinNewline : List String → String
  | [] => ""
  | [s] => s
  | s :: rest => s ++ "\n" ++ joinNewline rest

/-- pit.py Commit.serialize: the newline-joined list of the tree line, the author
line, the committer line (same Author serialization), an empty line and the
message, then str.encode. -/
def commitSerialize (tree : String) (author : Author) (message : String) : List Nat :=
  strBytes (joinNewline
    ["tree " ++ tree,
     "author " ++ author.serialize,
     "committer " ++ author.serialize,
     "",
     message])

/-- The three object variants of pit.py: Blob, Tree, Commit. -/
inductive PitObject where
  | blob (data : List Nat)
  | tree (entries : List Entry)
  | commit (tree : String) (author : Author) (message : String)
deriving DecidableEq

/-- The class attribute object.type: b'blob' / b'tree' / b'commit'. -/
def PitObject.typeToken : PitObject → List Nat
  | .blob _ => strBytes "blob"
  | .tree _ => strBytes "tree"
  | .commit _ _ _ => strBytes "commit"

/-- Dynamic dispatch of object.serialize() in Database.store; none models a
raised ValueError (only Tree.serialize can raise). -/
def PitObject.serialize : PitObject → Option (List Nat)
  | .blob data => some data
  | .tree entries => treeSerialize entries
  | .commit t a m => some (commitSerialize t a m)

/-- One step of os.path.join on POSIX: an absolute component restarts the path;
otherwise a slash is inserted unless the accumulated path is empty or already
ends in a slash. -/
def joinOne (acc p : String) : String :=
  if p.data.head? = some '/' then p
  else if acc = "" then acc ++ p
  else if acc.data.getLast? = some '/' then acc ++ p
  else acc ++ "/" ++ p

/-- os.path.join over a component list (first component is the starting path). -/
def osPathJoin : List String → String
  | [] => ""
  | p :: rest => rest.foldl joinOne p

/-- Python slicing s[:n] on str. -/
def strTake (s : String) (n : Nat) : String := ⟨s.data.take n⟩

/-- Python slicing s[n:] on str. -/
def strDrop (s : String) (n : Nat) : String := ⟨s.data.drop n⟩

/-- The object path computed by Database.write_object:
os.path.join(self.pathname, id[:2], id[2:]). -/
def objectPathOf (pathname id : String) : String :=
  osPathJoin [pathname, strTake id 2, strDrop id 2]

/-- os.path.dirname on POSIX: drop everything after the last slash, then strip
trailing slashes unless the result consists only of slashes. -/
def pyDirname (p : String) : String :=
  let kept := (p.data.reverse.dropWhile (fun c => c ≠ '/')).reverse
  let stripped := (kept.reverse.dropWhile (fun c => c = '/')).reverse
  if stripped = [] then ⟨kept⟩ else ⟨stripped⟩

/-- What Database.store produces: the Python return value of the call (store has
no return statement, so a call to it evaluates to None, modeled as ret = none),
the id assigned onto the object, and the path and frame handed to write_object. -/
structure StoreResult where
  ret : Option String
  objId : String
  writtenPath : String
  written : List Nat
deriving DecidableEq

/-- pit.py Database.store, with hashlib.sha1(content).hexdigest() abstracted as
the parameter hash.  The frame is object.type + b' ' + str(len(data)).encode()
+ b'\x00' + data; none models the ValueError propagating out of serialize(). -/
def Database.store (hash : List Nat → String) (pathname : String) (obj : PitObject) :
    Option StoreResult :=
  (obj.serialize).map (fun data =>
    let content := obj.typeToken ++ [32] ++ strBytes (toString data.length) ++ [0] ++ data
    let id := hash content
    { ret := none
      objId := id
      writtenPath := objectPathOf pathname id
      written := content })

/-- The Python exceptions that can escape Database.write_object. -/
inductive PyExc where
  | ioError (errno : Nat)
  | osError (errno : Nat)
  | unboundLocalError
deriving DecidableEq

/-- Filesystem actions write_object performs, in program order. -/
inductive FsAct where
  | mkdir (path : String)
  | openTemp (path : String)
  | writeClose (path : String) (bytes : List Nat)
  | rename (src dst : String)
deriving DecidableEq

/-- Syscall outcomes the environment supplies to write_object: none is success,
some e is a failure with errno e. -/
structure WriteEnv where
  firstOpen : Option Nat
  mkdirDir : Option Nat
  secondOpen : Option Nat
deriving DecidableEq

/-- errno.ENOENT. -/
def ENOENT : Nat := 2

/-- pit.py Database.write_object, with zlib.compress abstracted as a parameter
and syscall outcomes supplied by env.  Control flow follows the source exactly:
the first open is tried; an IOError with errno == ENOENT leads to os.mkdir of the
fan-out directory (failure propagates as that OSError) and exactly one retried
open (failure propagates as that IOError); an IOError with any other errno is
caught by the except clause, which then falls through without assigning f, so the
following f.write raises UnboundLocalError and the original IOError is lost.  On
success the compressed frame is written to the temp file, which is renamed onto
the object path. -/
def Database.write_object (compress : List Nat → List Nat) (env : WriteEnv)
    (pathname id tempName : String) (content : List Nat) : Except PyExc (List FsAct) :=
  let objectPath := objectPathOf pathname id
  let dirname := pyDirname objectPath
  let tempPath := osPathJoin [dirname, tempName]
  match env.firstOpen with
  | none =>
    .ok [.openTemp tempPath, .writeClose tempPath (compress content),
         .rename tempPath objectPath]
  | some e =>
    if e = ENOENT then
      match env.mkdirDir with
      | some me => .error (.osError me)
      | none =>
        match env.secondOpen with
        | some oe => .error (.ioError oe)
        | none =>
          .ok [.mkdir dirname, .openTemp tempPath,
               .writeClose tempPath (compress content), .rename tempPath objectPath]
    else
      .error .unboundLocalError

/-- OSError variants relevant to pathlib.Path.mkdir in init. -/
inductive MkdirErr where
  | fileExists
  | permissionDenied
  | otherOSError
deriving DecidableEq

/-- Observable outcome of the init command: the process exit code, the
directories created before exiting (in creation order), and the stdout and
stderr text written. -/
structure InitOutcome where
  exitCode : Nat
  created : List String
  stdoutText : String
  stderrText : String
deriving DecidableEq

/-- pit.py init, with the outcome of each pathlib mkdir supplied by the
environment (none = success; a pre-existing .git directory makes the first mkdir
fail with FileExistsError, an OSError).  Any OSError from the three mkdir calls
is caught by the single except clause, which writes the error message to stderr
and exits with code 1; on success the initialized path is printed to stdout and
the process exits with code 0. -/
def pitInit (rootPath : String) (mkGit mkObjects mkRefs : Option MkdirErr) : InitOutcome :=
  let gitPath := osPathJoin [rootPath, ".git"]
  match mkGit with
  | some _ => ⟨1, [], "", "Unable to initialize git paths"⟩
  | none =>
    match mkObjects with
    | some _ => ⟨1, [gitPath], "", "Unable to initialize git paths"⟩
    | none =>
      match mkRefs with
      | some _ =>
        ⟨1, [gitPath, osPathJoin [gitPath, "objects"]], "", "Unable to initialize git paths"⟩
      | none =>
        ⟨0, [gitPath, osPathJoin [gitPath, "objects"], osPathJoin [gitPath, "refs"]],
         "Initialized empty Pit repository in " ++ rootPath, ""⟩

/-- A flat file system: a map from paths to file contents (none = absent). -/
def FileSys := String → Option String

/-- Python open(path, "a+") followed by write(s): the file is created empty when
absent, and the written text is appended to whatever content is already there. -/
def appendWrite (fs : FileSys) (path s : String) : FileSys :=
  fun p => if p = path then some ((fs path).getD "" ++ s) else fs p

/-- The HEAD update at the end of pit.py commit: open(.git/HEAD, "a+") and write
the commit id. -/
def commitWriteHead (fs : FileSys) (gitPath commitId : String) : FileSys :=
  appendWrite fs (osPathJoin [gitPath, "HEAD"]) commitId

/-! ### Helper lemmas about the Python string order and the stable sort -/

theorem pyStrLt_asymm : ∀ x y, pyStrLt x y = true → pyStrLt y x = false := by
  intro x
  induction x with
  | nil =>
    intro y h
    cases y with
    | nil => simp [pyStrLt] at h
    | cons b t => simp [pyStrLt]
  | cons a s ih =>
    intro y h
    cases y with
    | nil => simp [pyStrLt] at h
    | cons b t =>
      simp only [pyStrLt] at h ⊢
      rcases Nat.lt_trichotomy a b with hab | hab | hab
      · rw [if_neg (Nat.lt_asymm hab), if_pos hab]
      · subst hab
        rw [if_neg (Nat.lt_irrefl a), if_neg (Nat.lt_irrefl a)] at h ⊢
        exact ih t h
      · rw [if_neg (Nat.lt_asymm hab), if_pos hab] at h
        exact absurd h (by simp)

theorem pyStrLt_eq_of_not : ∀ x y, pyStrLt x y = false → pyStrLt y x = false → x = y := by
  intro x
  induction x with
  | nil =>
    intro y h1 h2
    cases y with
    | nil => rfl
    | cons b t => simp [pyStrLt] at h1
  | cons a s ih =>
    intro y h1 h2
    cases y with
    | nil => simp [pyStrLt] at h2
    | cons b t =>
      simp only [pyStrLt] at h1 h2
      rcases Nat.lt_trichotomy a b with hab | hab | hab
      · rw [if_pos hab] at h1
        exact absurd h1 (by simp)
      · subst hab
        rw [if_neg (Nat.lt_irrefl a), if_neg (Nat.lt_irrefl a)] at h1 h2
        rw [ih t h1 h2]
      · rw [if_neg (Nat.lt_asymm hab), if_pos hab] at h2
        exact absurd h2 (by simp)

theorem pyStrLt_trans_or : ∀ x y z, pyStrLt x z = true →
    pyStrLt x y = true ∨ pyStrLt y z = true := by
  intro x
  induction x with
  | nil =>
    intro y z h
    cases z with
    | nil => simp [pyStrLt] at h
    | cons c u =>
      cases y with
      | nil => right; simp [pyStrLt]
      | cons b t => left; simp [pyStrLt]
  | cons a s ih =>
    intro y z h
    cases z with
    | nil => simp [pyStrLt] at h
    | cons c u =>
      cases y with
      | nil => right; simp [pyStrLt]
      | cons b t =>
        simp only [pyStrLt] at h ⊢
        rcases Nat.lt_trichotomy a c with hac | hac | hac
        · rcases Nat.lt_trichotomy a b with hab | hab | hab
          · left; rw [if_pos hab]
          · subst hab; right; rw [if_pos hac]
          · right; rw [if_pos (Nat.lt_trans hab hac)]
        · subst hac
          rw [if_neg (Nat.lt_irrefl a), if_neg (Nat.lt_irrefl a)] at h
          rcases Nat.lt_trichotomy a b with hab | hab | hab
          · left; rw [if_pos hab]
          · subst hab
            rcases ih t u h with h1 | h1
            · left
              rw [if_neg (Nat.lt_irrefl a), if_neg (Nat.lt_irrefl a)]
              exact h1
            · right
              rw [if_neg (Nat.lt_irrefl a), if_neg (Nat.lt_irrefl a)]
              exact h1
          · right; rw [if_pos hab]
        · rw [if_neg (Nat.lt_asymm hac), if_pos hac] at h
          exact absurd h (by simp)

theorem insertByLt_perm (lt : α → α → Bool) (a : α) :
    ∀ l : List α, (insertByLt lt a l).Perm (a :: l)
  | [] => List.Perm.refl _
  | b :: t => by
    simp only [insertByLt]
    by_cases h : lt b a = true
    · rw [if_pos h]
      exact ((insertByLt_perm lt a t).cons b).trans (List.Perm.swap a b t)
    · rw [if_neg h]

theorem pySorted_perm (lt : α → α → Bool) : ∀ l : List α, (pySorted lt l).Perm l
  | [] => List.Perm.refl _
  | a :: t => (insertByLt_perm lt a (pySorted lt t)).trans ((pySorted_perm lt t).cons a)

theorem insertByLt_pairwise {lt : α → α → Bool}
    (hconn : ∀ x y z, lt x z = true → lt x y = true ∨ lt y z = true)
    (hasymm : ∀ x y, lt x y = true → lt y x = false) (a : α) :
    ∀ {l : List α}, l.Pairwise (fun x y => lt y x = false) →
      (insertByLt lt a l).Pairwise (fun x y => lt y x = false)
  | [], _ => by simp [insertByLt]
  | b :: t, h => by
    rcases List.pairwise_cons.mp h with ⟨hb, ht⟩
    simp only [insertByLt]
    by_cases hba : lt b a = true
    · rw [if_pos hba]
      refine List.pairwise_cons.mpr ⟨?_, insertByLt_pairwise hconn hasymm a ht⟩
      intro x hx
      have hx2 : x = a ∨ x ∈ t := by
        have := (insertByLt_perm lt a t).mem_iff.mp hx
        simpa using this
      rcases hx2 with rfl | hx2
      · exact hasymm b x hba
      · exact hb x hx2
    · rw [if_neg hba]
      refine List.pairwise_cons.mpr ⟨?_, h⟩
      intro x hx
      rcases List.mem_cons.mp hx with rfl | hx2
      · exact Bool.eq_false_iff.mpr hba
      · by_contra hxa
        have hxa2 : lt x a = true := by
          cases hcase : lt x a
          · exact absurd hcase hxa
          · rfl
        rcases hconn x b a hxa2 with h1 | h1
        · rw [hb x hx2] at h1
          exact absurd h1 (by simp)
        · exact absurd h1 hba

theorem pySorted_pairwise {lt : α → α → Bool}
    (hconn : ∀ x y z, lt x z = true → lt x y = true ∨ lt y z = true)
    (hasymm : ∀ x y, lt x y = true → lt y x = false) :
    ∀ l : List α, (pySorted lt l).Pairwise (fun x y => lt y x = false)
  | [] => List.Pairwise.nil
  | a :: t => insertByLt_pairwise hconn hasymm a (pySorted_pairwise hconn hasymm t)

theorem strKey_inj {s t : String} (h : strKey s = strKey t) : s = t := by
  refine String.ext ?_
  exact List.map_injective_iff.mpr (fun c d hcd => Char.ext (UInt32.toNat.inj hcd)) h

theorem entryLt_asymm : ∀ x y : Entry, entryLt x y = true → entryLt y x = false :=
  fun _ _ h => pyStrLt_asymm _ _ h

theorem entryLt_trans_or : ∀ x y z : Entry, entryLt x z = true →
    entryLt x y = true ∨ entryLt y z = true :=
  fun _ _ _ h => pyStrLt_trans_or _ _ _ h

theorem sortedEntries_eq : ∀ l1 l2 : List Entry, l1.Perm l2 →
    l1.Pairwise (fun x y => entryLt y x = false) →
    l2.Pairwise (fun x y => entryLt y x = false) →
    (l1.map Entry.name).Nodup → l1 = l2 := by
  intro l1
  induction l1 with
  | nil =>
    intro l2 hp _ _ _
    exact hp.nil_eq
  | cons a t1 ih =>
    intro l2 hp h1 h2 hnd
    cases l2 with
    | nil => exact absurd hp.eq_nil (by simp)
    | cons b t2 =>
      have hab : a = b := by
        by_contra hne
        have ha2 : a ∈ b :: t2 := hp.mem_iff.mp (List.mem_cons_self a t1)
        have hb1 : b ∈ a :: t1 := hp.symm.mem_iff.mp (List.mem_cons_self b t2)
        have hat2 : a ∈ t2 := by
          rcases List.mem_cons.mp ha2 with h | h
          · exact absurd h hne
          · exact h
        have hbt1 : b ∈ t1 := by
          rcases List.mem_cons.mp hb1 with h | h
          · exact absurd h.symm hne
          · exact h
        have e1 : entryLt b a = false := (List.pairwise_cons.mp h1).1 b hbt1
        have e2 : entryLt a b = false := (List.pairwise_cons.mp h2).1 a hat2
        have hkey : strKey a.name = strKey b.name := pyStrLt_eq_of_not _ _ e2 e1
        have hname : a.name = b.name := strKey_inj hkey
        exact hne (List.inj_on_of_nodup_map hnd (List.mem_cons_self a t1) hb1 hname)
      subst hab
      have ht : t1.Perm t2 := hp.cons_inv
      have hnd1 : (t1.map Entry.name).Nodup := (List.nodup_cons.mp (by simpa using hnd)).2
      rw [ih t2 ht (List.pairwise_cons.mp h1).2 (List.pairwise_cons.mp h2).2 hnd1]

theorem pySorted_entries_eq_of_perm {l1 l2 : List Entry} (hp : l1.Perm l2)
    (hnd : (l1.map Entry.name).Nodup) :
    pySorted entryLt l1 = pySorted entryLt l2 := by
  refine sortedEntries_eq _ _ ?_ ?_ ?_ ?_
  · exact (pySorted_perm entryLt l1).trans (hp.trans (pySorted_perm entryLt l2).symm)
  · exact pySorted_pairwise entryLt_trans_or entryLt_asymm l1
  · exact pySorted_pairwise entryLt_trans_or entryLt_asymm l2
  · exact (((pySorted_perm entryLt l1).map Entry.name).symm).nodup hnd

/-! ### Helper lemmas about fromhex and tree row collection -/

theorem entryRow_eq_none_iff {e : Entry} : entryRow e = none ↔ bytesFromhex e.id.data = none := by
  simp [entryRow]

theorem collectRows_eq_none_iff : ∀ l : List Entry,
    collectRows l = none ↔ ∃ e ∈ l, bytesFromhex e.id.data = none := by
  intro l
  induction l with
  | nil => simp [collectRows]
  | cons e rest ih =>
    simp only [collectRows]
    cases hr : entryRow e with
    | none =>
      simp only []
      constructor
      · intro _
        exact ⟨e, List.mem_cons_self e rest, entryRow_eq_none_iff.mp hr⟩
      · intro _
        trivial
    | some r =>
      cases hc : collectRows rest with
      | none =>
        simp only []
        constructor
        · intro _
          rcases ih.mp hc with ⟨e2, he2, hb⟩
          exact ⟨e2, List.mem_cons_of_mem e he2, hb⟩
        · intro _
          trivial
      | some rs =>
        simp only []
        constructor
        · intro h
          exact absurd h (by simp)
        · intro h
          rcases h with ⟨e2, he2, hb⟩
          rcases List.mem_cons.mp he2 with rfl | he2
          · rw [entryRow_eq_none_iff.mpr hb] at hr
            exact absurd hr (by simp)
          · rw [ih.mpr ⟨e2, he2, hb⟩] at hc
            exact absurd hc (by simp)

theorem bytesFromhex_isSome : ∀ l : List Char, l.length % 2 = 0 →
    (∀ c ∈ l, (hexVal c).isSome) → (bytesFromhex l).isSome
  | [], _, _ => by simp [bytesFromhex]
  | [c], h, _ => by simp at h
  | c :: c2 :: rest, h, hall => by
    have hc : (hexVal c).isSome := hall c (by simp)
    have hc2 : (hexVal c2).isSome := hall c2 (by simp)
    have hcs : ¬(c = ' ') := by
      intro he
      subst he
      rw [(by decide : hexVal ' ' = none)] at hc
      exact absurd hc (by simp)
    have hrest := bytesFromhex_isSome rest (by simp at h; omega)
      (fun x hx => hall x (by simp [hx]))
    obtain ⟨d1, hd1⟩ := Option.isSome_iff_exists.mp hc
    obtain ⟨d2, hd2⟩ := Option.isSome_iff_exists.mp hc2
    obtain ⟨bs, hbs⟩ := Option.isSome_iff_exists.mp hrest
    simp only [bytesFromhex, if_neg hcs, hd1, hd2, hbs]
    rfl

/-! ### Helper lemmas about os.path.join -/

theorem hexVal_ne_slash {c : Char} (h : (hexVal c).isSome) : c ≠ '/' := by
  intro he
  subst he
  rw [(by decide : hexVal '/' = none)] at h
  exact absurd h (by simp)

theorem string_ne_empty_of_data {s : String} {c : Char} {l : List Char}
    (h : s.data = c :: l) : s ≠ "" := by
  intro he
  subst he
  simp at h

theorem joinOne_eq {acc p : String} (h1 : acc ≠ "") (h2 : acc.data.getLast? ≠ some '/')
    (h3 : p.data.head? ≠ some '/') : joinOne acc p = acc ++ "/" ++ p := by
  unfold joinOne
  rw [if_neg h3, if_neg h1, if_neg h2]

/-! ### String append helpers -/

theorem strAppendGetLast {s t : String} {c : Char} (h : t.data.getLast? = some c) :
    (s ++ t).data.getLast? = some c := by
  rw [String.data_append, List.getLast?_append, h]
  rfl

theorem strAppendNeEmpty {s t : String} (h : t ≠ "") : s ++ t ≠ "" := by
  intro he
  apply h
  have hd : (s ++ t).data = [] := by rw [he]
  rw [String.data_append] at hd
  rcases List.append_eq_nil.mp hd with ⟨_, h2⟩
  exact String.ext h2

/-- Evaluation of Database.store once serialize has produced the raw content. -/
theorem store_eq (hash : List Nat → String) (pathname : String) (obj : PitObject)
    (data : List Nat) (h : obj.serialize = some data) :
    Database.store hash pathname obj =
      some { ret := none
             objId := hash (obj.typeToken ++ [32] ++ strBytes (toString data.length) ++ [0] ++ data)
             writtenPath := objectPathOf pathname
               (hash (obj.typeToken ++ [32] ++ strBytes (toString data.length) ++ [0] ++ data))
             written := obj.typeToken ++ [32] ++ strBytes (toString data.length) ++ [0] ++ data } := by
  unfold Database.store
  rw [h, Option.map_some']

/-! ### The claims -/

/-- Claim C1: for every object, Database.store builds the storage frame as the kind
token, one ASCII space, the decimal ASCII byte length of the raw serialized content
(not the frame length), one NUL byte, then the raw content bytes, and computes the
content id by applying the digest function to that exact frame; in particular, for
a Blob with data b"hello\n" the frame is b"blob 6\x00hello\n" and the content id
is the digest of that frame. -/
theorem claim_C1_store_frame :
    (∀ (hash : List Nat → String) (pathname : String) (obj : PitObject) (data : List Nat),
      obj.serialize = some data →
      ∃ r, Database.store hash pathname obj = some r ∧
        r.written = obj.typeToken ++ [32] ++ strBytes (toString data.length) ++ [0] ++ data ∧
        r.objId = hash r.written) ∧
    (∀ (hash : List Nat → String) (pathname : String),
      ∃ r, Database.store hash pathname (PitObject.blob (strBytes "hello\n")) = some r ∧
        r.written = [98, 108, 111, 98, 32, 54, 0, 104, 101, 108, 108, 111, 10] ∧
        r.objId = hash [98, 108, 111, 98, 32, 54, 0, 104, 101, 108, 108, 111, 10]) := by
  constructor
  · intro hash pathname obj data h
    exact ⟨_, store_eq hash pathname obj data h, rfl, rfl⟩
  · intro hash pathname
    refine ⟨_, store_eq hash pathname (PitObject.blob (strBytes "hello\n"))
      (strBytes "hello\n") rfl, ?_, ?_⟩
    · show PitObject.typeToken (PitObject.blob (strBytes "hello\n")) ++ [32] ++
        strBytes (toString (strBytes "hello\n").length) ++ [0] ++ strBytes "hello\n" =
        [98, 108, 111, 98, 32, 54, 0, 104, 101, 108, 108, 111, 10]
      decide
    · show hash (PitObject.typeToken (PitObject.blob (strBytes "hello\n")) ++ [32] ++
        strBytes (toString (strBytes "hello\n").length) ++ [0] ++ strBytes "hello\n") =
        hash [98, 108, 111, 98, 32, 54, 0, 104, 101, 108, 108, 111, 10]
      exact congrArg hash (by decide)

/-- Witness for claim C1 at a concrete blob and digest function. -/
theorem claim_C1_store_frame_witness :
    ∃ r, Database.store (fun _ => "x") "objects" (PitObject.blob [104]) = some r ∧
      r.written = PitObject.typeToken (PitObject.blob [104]) ++ [32] ++
        strBytes (toString ([104] : List Nat).length) ++ [0] ++ [104] ∧
      r.objId = (fun _ : List Nat => "x") r.written :=
  claim_C1_store_frame.1 (fun _ => "x") "objects" (PitObject.blob [104]) [104] rfl

/-- Counterexample to claim C3 as stated: the call to Database.store evaluates to
None (ret = none) because pit.py's store has no return statement, so the computed
content id is not returned to the caller - it is only assigned onto the object. -/
theorem claim_C3_counterexample :
    Database.store (fun _ => "d0ff") "objects" (PitObject.blob [104]) =
      some { ret := none, objId := "d0ff", writtenPath := "objects/d0/ff",
             written := [98, 108, 111, 98, 32, 49, 0, 104] } := by
  decide

/-- Claim C3 (amended): store assigns the computed content id onto the object's id
field, but the call itself returns None (there is no return statement); callers
read the id from the object afterwards. -/
theorem claim_C3_store_assigns :
    ∀ (hash : List Nat → String) (pathname : String) (obj : PitObject) (data : List Nat),
      obj.serialize = some data →
      ∃ r, Database.store hash pathname obj = some r ∧
        r.objId = hash (obj.typeToken ++ [32] ++ strBytes (toString data.length) ++ [0] ++ data) ∧
        r.ret = none := by
  intro hash pathname obj data h
  exact ⟨_, store_eq hash pathname obj data h, rfl, rfl⟩

/-- Witness for the amended claim C3 at a concrete blob and digest function. -/
theorem claim_C3_store_assigns_witness :
    ∃ r, Database.store (fun _ => "aa") "o" (PitObject.blob [104]) = some r ∧
      r.objId = (fun _ : List Nat => "aa") (PitObject.typeToken (PitObject.blob [104]) ++ [32] ++
        strBytes (toString ([104] : List Nat).length) ++ [0] ++ [104]) ∧
      r.ret = none :=
  claim_C3_store_assigns (fun _ => "aa") "o" (PitObject.blob [104]) [104] rfl

/-- Claim C4, checked against the code: Author.serialize formats with
strftime("%s %z"); for the naive datetimes pit.py actually constructs
(datetime.now() with no timezone), %z renders as the empty string, so the output is
"<name> <email> <epoch> " with a trailing space and no ±HHMM field (its length here
is 27, the claimed shape would need 32); only a timezone-aware datetime produces
the claimed "<name> <email> <epoch-seconds> <±HHMM>" text. -/
theorem claim_C4_naive_author_no_offset :
    Author.serialize ⟨"Jane", "jane@x.com", ⟨1234567890, none⟩⟩ =
      "Jane jane@x.com 1234567890 " ∧
    (Author.serialize ⟨"Jane", "jane@x.com", ⟨1234567890, none⟩⟩).length = 27 ∧
    Author.serialize ⟨"Jane", "jane@x.com", ⟨1234567890, some 330⟩⟩ =
      "Jane jane@x.com 1234567890 +0530" ∧
    Author.serialize ⟨"Jane", "jane@x.com", ⟨1234567890, some (-300)⟩⟩ =
      "Jane jane@x.com 1234567890 -0500" :=
  ⟨by decide, by decide, by decide, by decide⟩

/-- Claim C6: Commit.serialize is the newline-join of the line "tree T", the line
"author " + a.serialize(), the line "committer " + a.serialize() (the same Author
serialization twice), an empty line, and the message, with no trailing newline
added beyond what the message contains; concretely for tree id "T", author Jane
and message "init\n" it is the five-line record. -/
theorem claim_C6_commit_record :
    (∀ (t : String) (a : Author) (m : String),
      commitSerialize t a m =
        strBytes ("tree " ++ t ++ "\n" ++ "author " ++ a.serialize ++ "\n" ++
          "committer " ++ a.serialize ++ "\n" ++ "\n" ++ m)) ∧
    commitSerialize "T" ⟨"Jane", "jane@x.com", ⟨1234567890, none⟩⟩ "init\n" =
      strBytes
        "tree T\nauthor Jane jane@x.com 1234567890 \ncommitter Jane jane@x.com 1234567890 \n\ninit\n" := by
  constructor
  · intro t a m
    unfold commitSerialize
    apply congrArg
    have h2 : ∀ (s u : String) (rest : List String),
        joinNewline (s :: u :: rest) = s ++ "\n" ++ joinNewline (u :: rest) :=
      fun _ _ _ => rfl
    rw [h2, h2, h2, h2]
    show _ ++ "\n" ++ (_ ++ "\n" ++ (_ ++ "\n" ++ ("" ++ "\n" ++ m))) = _
    rw [String.empty_append]
    simp only [String.append_assoc]
  · decide

/-- Claim C10: the HEAD update at the end of commit appends exactly the commit id
to .git/HEAD (creating the file when absent) with no added separator or newline,
so successive commit ids concatenate with no delimiter; prior HEAD content is kept
unchanged as the prefix, and no other path is touched. -/
theorem claim_C10_head_append :
    ∀ (fs : FileSys) (gitPath id1 id2 p : String),
      commitWriteHead fs gitPath id1 (osPathJoin [gitPath, "HEAD"]) =
        some ((fs (osPathJoin [gitPath, "HEAD"])).getD "" ++ id1) ∧
      (p ≠ osPathJoin [gitPath, "HEAD"] → commitWriteHead fs gitPath id1 p = fs p) ∧
      commitWriteHead (commitWriteHead fs gitPath id1) gitPath id2
          (osPathJoin [gitPath, "HEAD"]) =
        some ((fs (osPathJoin [gitPath, "HEAD"])).getD "" ++ id1 ++ id2) := by
  intro fs gitPath id1 id2 p
  refine ⟨?_, ?_, ?_⟩
  · simp [commitWriteHead, appendWrite]
  · intro hp
    simp [commitWriteHead, appendWrite, hp]
  · simp [commitWriteHead, appendWrite, String.append_assoc]

/-- Witness for claim C10 on a concrete empty file system and git path. -/
theorem claim_C10_head_append_witness :
    commitWriteHead (fun _ => none) "/r/.git" "abc" (osPathJoin ["/r/.git", "HEAD"]) =
      some (((fun _ => none : FileSys) (osPathJoin ["/r/.git", "HEAD"])).getD "" ++ "abc") ∧
    commitWriteHead (fun _ => none) "/r/.git" "abc" "/r/other" =
      (fun _ => none : FileSys) "/r/other" ∧
    commitWriteHead (commitWriteHead (fun _ => none) "/r/.git" "abc") "/r/.git" "def"
        (osPathJoin ["/r/.git", "HEAD"]) =
      some (((fun _ => none : FileSys) (osPathJoin ["/r/.git", "HEAD"])).getD "" ++
        "abc" ++ "def") :=
  ⟨(claim_C10_head_append (fun _ => none) "/r/.git" "abc" "def" "/r/other").1,
   (claim_C10_head_append (fun _ => none) "/r/.git" "abc" "def" "/r/other").2.1 (by decide),
   (claim_C10_head_append (fun _ => none) "/r/.git" "abc" "def" "/r/other").2.2⟩

/-- Counterexample to claim C2 as stated for arbitrary Entry sets: two distinct
entries may share a name; sorted() is stable and keys on the name only, so the two
orders of this two-element set serialize to different bytes. -/
theorem claim_C2_counterexample :
    ([⟨"a", String.mk (List.replicate 40 'a')⟩, ⟨"a", String.mk (List.replicate 40 'b')⟩] :
      List Entry).Nodup ∧
    ([⟨"a", String.mk (List.replicate 40 'a')⟩, ⟨"a", String.mk (List.replicate 40 'b')⟩] :
      List Entry).Perm
      [⟨"a", String.mk (List.replicate 40 'b')⟩, ⟨"a", String.mk (List.replicate 40 'a')⟩] ∧
    treeSerialize [⟨"a", String.mk (List.replicate 40 'a')⟩,
                   ⟨"a", String.mk (List.replicate 40 'b')⟩] ≠
      treeSerialize [⟨"a", String.mk (List.replicate 40 'b')⟩,
                     ⟨"a", String.mk (List.replicate 40 'a')⟩] :=
  ⟨by decide, List.Perm.swap _ _ _, by decide⟩

/-- Claim C2 (amended): for every list of Entries whose names are pairwise
distinct, every permutation serializes to the same bytes and hence the stored Tree
gets the identical content id; concretely, a Tree built from
[("b.txt", id B), ("a.txt", id A)] serializes the a.txt entry before the b.txt
entry. -/
theorem claim_C2_tree_order :
    (∀ l1 l2 : List Entry, l1.Perm l2 → (l1.map Entry.name).Nodup →
      treeSerialize l1 = treeSerialize l2) ∧
    (∀ (hash : List Nat → String) (pathname : String) (l1 l2 : List Entry),
      l1.Perm l2 → (l1.map Entry.name).Nodup →
      Database.store hash pathname (PitObject.tree l1) =
        Database.store hash pathname (PitObject.tree l2)) ∧
    treeSerialize [⟨"b.txt", String.mk (List.replicate 40 'b')⟩,
                   ⟨"a.txt", String.mk (List.replicate 40 'a')⟩] =
      some ((treeMODE ++ [32] ++ strBytes "a.txt" ++ [0] ++ List.replicate 20 170) ++
            (treeMODE ++ [32] ++ strBytes "b.txt" ++ [0] ++ List.replicate 20 187)) := by
  have hser : ∀ l1 l2 : List Entry, l1.Perm l2 → (l1.map Entry.name).Nodup →
      treeSerialize l1 = treeSerialize l2 := by
    intro l1 l2 hp hnd
    unfold treeSerialize
    rw [pySorted_entries_eq_of_perm hp hnd]
  refine ⟨hser, ?_, by decide⟩
  intro hash pathname l1 l2 hp hnd
  simp only [Database.store, PitObject.serialize, PitObject.typeToken]
  rw [hser l1 l2 hp hnd]

/-- Witness for the amended claim C2 on a concrete two-entry permutation. -/
theorem claim_C2_tree_order_witness :
    treeSerialize [⟨"a.txt", "aa"⟩, ⟨"b.txt", "bb"⟩] =
      treeSerialize [⟨"b.txt", "bb"⟩, ⟨"a.txt", "aa"⟩] :=
  claim_C2_tree_order.1 _ _
    (List.Perm.swap (⟨"b.txt", "bb"⟩ : Entry) (⟨"a.txt", "aa"⟩ : Entry) []) (by decide)

/-- Counterexample to claim C5 as stated: an entry id that is valid hex of the
wrong length ("abcd": four hex digits, a 2-byte digest instead of 20 bytes) does
not make Tree.serialize fail; bytearray.fromhex accepts any even number of hex
digits, so only non-hex characters or an odd digit count are rejected. -/
theorem claim_C5_counterexample :
    ("abcd" : String).length ≠ 40 ∧
    treeSerialize [⟨"a", "abcd"⟩] = some [49, 48, 48, 54, 52, 52, 32, 97, 0, 171, 205] ∧
    Database.store (fun _ => "cafe") "objects" (PitObject.tree [⟨"a", "abcd"⟩]) ≠ none :=
  ⟨by decide, by decide, by decide⟩

/-- Claim C5 (amended): Tree.serialize fails exactly when some entry id is rejected
by bytearray.fromhex (a character that is no hex digit or separating space, or an
odd number of digits); even-length hex ids of any length succeed, in particular
every tree whose entry ids are 40 hex characters serializes; and with a rejected id
Database.store fails up front, before a hash is computed or anything is handed to
write_object. -/
theorem claim_C5_malformed_ids :
    (∀ entries : List Entry,
      treeSerialize entries = none ↔ ∃ e ∈ entries, bytesFromhex e.id.data = none) ∧
    (∀ entries : List Entry,
      (∀ e ∈ entries, e.id.length = 40 ∧ ∀ c ∈ e.id.data, (hexVal c).isSome) →
      (treeSerialize entries).isSome) ∧
    (∀ (hash : List Nat → String) (pathname : String) (entries : List Entry),
      (∃ e ∈ entries, bytesFromhex e.id.data = none) →
      Database.store hash pathname (PitObject.tree entries) = none) := by
  have hiff : ∀ entries : List Entry,
      treeSerialize entries = none ↔ ∃ e ∈ entries, bytesFromhex e.id.data = none := by
    intro entries
    unfold treeSerialize
    rw [Option.map_eq_none', collectRows_eq_none_iff]
    constructor
    · rintro ⟨e, he, hb⟩
      exact ⟨e, (pySorted_perm entryLt entries).mem_iff.mp he, hb⟩
    · rintro ⟨e, he, hb⟩
      exact ⟨e, (pySorted_perm entryLt entries).mem_iff.mpr he, hb⟩
  refine ⟨hiff, ?_, ?_⟩
  · intro entries hall
    cases hts : treeSerialize entries with
    | some v => simp
    | none =>
      rcases (hiff entries).mp hts with ⟨e, he, hb⟩
      rcases hall e he with ⟨hlen, hhex⟩
      have hs : (bytesFromhex e.id.data).isSome := by
        refine bytesFromhex_isSome _ ?_ hhex
        have hl : e.id.data.length = e.id.length := rfl
        rw [hl, hlen]
      rw [hb] at hs
      exact absurd hs (by simp)
  · intro hash pathname entries hex
    have hn : treeSerialize entries = none := (hiff entries).mpr hex
    simp only [Database.store, PitObject.serialize, hn, Option.map_none']

/-- Witness for the amended claim C5: a 40-hex-char tree serializes, a non-hex id
makes the whole store call fail. -/
theorem claim_C5_malformed_ids_witness :
    (treeSerialize [⟨"f", String.mk (List.replicate 40 'a')⟩]).isSome ∧
    Database.store (fun _ => "h") "o" (PitObject.tree [⟨"f", "zz"⟩]) = none :=
  ⟨claim_C5_malformed_ids.2.1 [⟨"f", String.mk (List.replicate 40 'a')⟩] (by decide),
   claim_C5_malformed_ids.2.2 (fun _ => "h") "o" [⟨"f", "zz"⟩]
     ⟨⟨"f", "zz"⟩, by decide, by decide⟩⟩

/-- Claim C7: write_object persists under os.path.join(self.pathname, id[:2],
id[2:]): for hex content ids and a store root that is nonempty and does not end in
a slash, this is exactly root/<first two id characters>/<remaining characters>;
and the path Database.store derives is exactly this join of its root and the
computed content id. -/
theorem claim_C7_fanout_path :
    (∀ pathname id : String, pathname ≠ "" → pathname.data.getLast? ≠ some '/' →
      2 ≤ id.length → (∀ c ∈ id.data, (hexVal c).isSome) →
      objectPathOf pathname id = pathname ++ "/" ++ strTake id 2 ++ "/" ++ strDrop id 2) ∧
    (∀ (hash : List Nat → String) (pathname : String) (obj : PitObject) (r : StoreResult),
      Database.store hash pathname obj = some r →
      r.writtenPath = objectPathOf pathname r.objId) := by
  constructor
  · intro pathname id hne hlast hlen hhex
    obtain ⟨c1, c2, rest, hid⟩ : ∃ c1 c2 rest, id.data = c1 :: c2 :: rest := by
      have hl : id.data.length = id.length := rfl
      rcases hd : id.data with _ | ⟨d1, _ | ⟨d2, r2⟩⟩
      · rw [hd] at hl
        simp at hl
        omega
      · rw [hd] at hl
        simp at hl
        omega
      · exact ⟨d1, d2, r2, rfl⟩
    have htake : strTake id 2 = ⟨[c1, c2]⟩ := by
      unfold strTake
      rw [hid]
      rfl
    have hdrop : strDrop id 2 = ⟨rest⟩ := by
      unfold strDrop
      rw [hid]
      rfl
    have hc1 : (hexVal c1).isSome := hhex c1 (by rw [hid]; simp)
    have hc2 : (hexVal c2).isSome := hhex c2 (by rw [hid]; simp)
    have hstep1 : joinOne pathname (strTake id 2) = pathname ++ "/" ++ strTake id 2 := by
      refine joinOne_eq hne hlast ?_
      rw [htake]
      intro h
      exact hexVal_ne_slash hc1 (Option.some.inj h)
    have hacc_ne : pathname ++ "/" ++ strTake id 2 ≠ "" :=
      strAppendNeEmpty (by rw [htake]; intro h; simp [String.ext_iff] at h)
    have hacc_last : (pathname ++ "/" ++ strTake id 2).data.getLast? ≠ some '/' := by
      rw [htake]
      rw [strAppendGetLast (s := pathname ++ "/") (t := ⟨[c1, c2]⟩) rfl]
      intro h
      exact hexVal_ne_slash hc2 (Option.some.inj h)
    have hdrop_head : (strDrop id 2).data.head? ≠ some '/' := by
      rw [hdrop]
      cases rest with
      | nil => intro h; exact Option.noConfusion h
      | cons c3 r3 =>
        intro h
        have hc3 : (hexVal c3).isSome := hhex c3 (by rw [hid]; simp)
        exact hexVal_ne_slash hc3 (Option.some.inj h)
    show List.foldl joinOne pathname [strTake id 2, strDrop id 2] = _
    simp only [List.foldl_cons, List.foldl_nil]
    rw [hstep1, joinOne_eq hacc_ne hacc_last hdrop_head]
  · intro hash pathname obj r h
    rcases Option.map_eq_some'.mp h with ⟨data, _, hr⟩
    rw [← hr]

/-- Witness for claim C7 at a concrete objects root and 40-hex-character id. -/
theorem claim_C7_fanout_path_witness :
    objectPathOf ".git/objects" "ce013625030ba8dba906f756967f9e9ca394464a" =
      ".git/objects" ++ "/" ++ strTake "ce013625030ba8dba906f756967f9e9ca394464a" 2 ++ "/" ++
      strDrop "ce013625030ba8dba906f756967f9e9ca394464a" 2 :=
  claim_C7_fanout_path.1 ".git/objects" "ce013625030ba8dba906f756967f9e9ca394464a"
    (by decide) (by decide) (by decide) (by decide)

/-- Claim C8, checked against the code: when the first open of the temp file fails
with errno ENOENT, write_object creates the fan-out directory and retries the open
exactly once (a failure of the retried open propagates as that IOError, with no
further retry); but when the first open fails with any other errno (here EACCES,
13), the except clause catches the IOError, the errno test fails, nothing is
re-raised, and the following f.write hits the never-assigned variable f: the call
fails with UnboundLocalError, not with the original I/O error the claim promises. -/
theorem claim_C8_nonenoent_swallowed :
    Database.write_object (fun l => 120 :: l) ⟨some 13, none, none⟩ ".git/objects"
        "ce013625030ba8dba906f756967f9e9ca394464a" "tmp_obj_AB12CD" [1, 2, 3] =
      Except.error PyExc.unboundLocalError ∧
    PyExc.unboundLocalError ≠ PyExc.ioError 13 ∧
    Database.write_object (fun l => 120 :: l) ⟨some ENOENT, none, none⟩ ".git/objects"
        "ce013625030ba8dba906f756967f9e9ca394464a" "tmp_obj_AB12CD" [1, 2, 3] =
      Except.ok [FsAct.mkdir ".git/objects/ce",
        FsAct.openTemp ".git/objects/ce/tmp_obj_AB12CD",
        FsAct.writeClose ".git/objects/ce/tmp_obj_AB12CD" [120, 1, 2, 3],
        FsAct.rename ".git/objects/ce/tmp_obj_AB12CD"
          ".git/objects/ce/013625030ba8dba906f756967f9e9ca394464a"] ∧
    Database.write_object (fun l => 120 :: l) ⟨some ENOENT, none, some 13⟩ ".git/objects"
        "ce013625030ba8dba906f756967f9e9ca394464a" "tmp_obj_AB12CD" [1, 2, 3] =
      Except.error (PyExc.ioError 13) :=
  ⟨rfl, by decide, rfl, rfl⟩

/-- Claim C9: init exits with code 1 and reports an initialization error whenever
the root already contains a .git directory (the first mkdir raises FileExistsError)
or any of the three directory creations is denied by the filesystem; on success it
creates root/.git, root/.git/objects and root/.git/refs, prints the initialized
path to stdout, and exits with code 0. -/
theorem claim_C9_init_outcomes :
    (∀ (root : String) (m2 m3 : Option MkdirErr),
      (pitInit root (some MkdirErr.fileExists) m2 m3).exitCode = 1 ∧
      (pitInit root (some MkdirErr.fileExists) m2 m3).stderrText =
        "Unable to initialize git paths") ∧
    (∀ (root : String) (m1 m2 m3 : Option MkdirErr),
      m1 ≠ none ∨ m2 ≠ none ∨ m3 ≠ none →
      (pitInit root m1 m2 m3).exitCode = 1 ∧
      (pitInit root m1 m2 m3).stderrText = "Unable to initialize git paths") ∧
    (∀ root : String, root ≠ "" → root.data.getLast? ≠ some '/' →
      pitInit root none none none =
        ⟨0, [root ++ "/.git", root ++ "/.git/objects", root ++ "/.git/refs"],
         "Initialized empty Pit repository in " ++ root, ""⟩) := by
  refine ⟨?_, ?_, ?_⟩
  · intro root m2 m3
    exact ⟨rfl, rfl⟩
  · intro root m1 m2 m3 h
    cases m1 with
    | some e => exact ⟨rfl, rfl⟩
    | none =>
      cases m2 with
      | some e => exact ⟨rfl, rfl⟩
      | none =>
        cases m3 with
        | some e => exact ⟨rfl, rfl⟩
        | none =>
          rcases h with h | h | h <;> exact absurd rfl h
  · intro root hne hlast
    have hgit : osPathJoin [root, ".git"] = root ++ "/.git" := by
      show joinOne root ".git" = _
      rw [joinOne_eq hne hlast (by decide)]
      refine String.ext ?_
      simp [String.data_append]
    have hgl : (root ++ "/.git").data.getLast? ≠ some '/' := by
      rw [show (root ++ "/.git").data.getLast? = some 't' from strAppendGetLast rfl]
      decide
    have hobj : osPathJoin [root ++ "/.git", "objects"] = root ++ "/.git/objects" := by
      show joinOne (root ++ "/.git") "objects" = _
      rw [joinOne_eq (strAppendNeEmpty (by decide)) hgl (by decide)]
      refine String.ext ?_
      simp [String.data_append]
    have hrefs : osPathJoin [root ++ "/.git", "refs"] = root ++ "/.git/refs" := by
      show joinOne (root ++ "/.git") "refs" = _
      rw [joinOne_eq (strAppendNeEmpty (by decide)) hgl (by decide)]
      refine String.ext ?_
      simp [String.data_append]
    show InitOutcome.mk 0 [osPathJoin [root, ".git"],
        osPathJoin [osPathJoin [root, ".git"], "objects"],
        osPathJoin [osPathJoin [root, ".git"], "refs"]]
        ("Initialized empty Pit repository in " ++ root) "" = _
    rw [hgit, hobj, hrefs]

/-- Witness for claim C9 at a concrete root. -/
theorem claim_C9_init_outcomes_witness :
    (pitInit "/repo" (some MkdirErr.fileExists) none none).exitCode = 1 ∧
    (pitInit "/repo" none (some MkdirErr.permissionDenied) none).exitCode = 1 ∧
    pitInit "/repo" none none none =
      ⟨0, ["/repo" ++ "/.git", "/repo" ++ "/.git/objects", "/repo" ++ "/.git/refs"],
       "Initialized empty Pit repository in " ++ "/repo", ""⟩ :=
  ⟨(claim_C9_init_outcomes.1 "/repo" none none).1,
   (claim_C9_init_outcomes.2.1 "/repo" none (some MkdirErr.permissionDenied) none
     (Or.inr (Or.inl (by decide)))).1,
   claim_C9_init_outcomes.2.2 "/repo" (by decide) (by decide)⟩
